import Mathlib

/-!
Shallow embedding of the fillaridata incremental-update pipeline
(`modules/data.py` and `modules/fmi.py`) and proofs about it.

Timestamps are modelled as natural numbers counting whole minutes (all
timestamps flowing through the pipeline are minute-truncated UTC instants).
Pandas DataFrames indexed by `(date_utc, name)` are modelled as association
lists `List ((Nat × String) × α)`; a missing value is `Option.none`.
Filenames are modelled abstractly as an arbitrary type `F` together with the
timestamp-extraction function `ts : F → Nat` (the result of
`pd.to_datetime(f[9:])` on a well-formed name `stations_yyyymmddThhmmssZ`).
Python exceptions / `sys.exit` are modelled by an `Option` result, with
`none` standing for "the call does not return a value".
-/

namespace Fillaridata

/-! ### Python `range(0, n, step)` and list slicing

`__trim_split_filenames` splits via
`[filenames[x:x + batch] for x in range(0, len(filenames), batch)]`.
`range` raises `ValueError` when `step = 0`; for a negative `step` and a
non-negative `stop` it is empty (it counts down from 0 and stops at once).
-/

/-- Indices produced by Python `range(0, n, step)` for a positive `step`:
the multiples of `step` strictly below `n`. -/
def pyRangePos (n step : Nat) : List Nat :=
  (List.range ((n + step - 1) / step)).map (· * step)

/-- Python `range(0, n, step)` for `n ≥ 0` and an arbitrary integer `step`.
`none` models the `ValueError` raised for `step = 0`; a negative `step`
yields the empty list because the count-down from `0` stops immediately. -/
def pyRange0 (n : Nat) (step : Int) : Option (List Nat) :=
  if step = 0 then none
  else if 0 < step then some (pyRangePos n step.toNat)
  else some []

/-- The batch slices `[l[x:x+step] for x in range(0, len(l), step)]`
for a positive `step`. -/
def pySlices {F : Type} (l : List F) (step : Nat) : List (List F) :=
  (pyRangePos l.length step).map (fun x => (l.drop x).take step)

/-! ### `modules/data.py` -/

/-- Model of `__get_filenames(source, start_after)`.  The enumeration of the source
listing is the input `names`; `validName` models the regular-expression
check of the source (prefix stations_, 8 digits, T, 6 digits, Z).  The two
`sys.exit`
paths (one or fewer matched; no new files) are modelled by `none`. -/
def getFilenames {F : Type} (ts : F → Nat) (validName : F → Bool)
    (names : List F) (startAfter : Nat) : Option (List F) :=
  let matched := names.filter validName
  if 1 < matched.length then
    let due := matched.filter (fun f => startAfter < ts f)
    if due.length = 0 then none else some due
  else none

/-- Model of `__get_bike_data(source, files)`.  `parse` models the body of the `try`
block for one file (JSON fetch, `result` expansion, time-stamping and
reindexing), returning `none` when any of it raises.  The result is the
accumulated table together with the `failures` counter. -/
def getBikeData {F R : Type} (parse : F → Option (List R)) (files : List F) :
    List R × Nat :=
  files.foldl
    (fun acc file =>
      match parse file with
      | some t => (acc.1 ++ t, acc.2)
      | none => (acc.1, acc.2 + 1))
    ([], 0)

/-- Model of `__trim_split_filenames(filenames, first, limit, batch)`.  The
`--first`
filter keeps entries whose timestamp is `≥ first`; the `--limit` truncation
applies only for `limit > 0`; the final comprehension slices with Python
`range` semantics (`none` models the uncaught `ValueError` for
`batch = 0`). -/
def trimSplitFilenames {F : Type} (ts : F → Nat) (filenames : List F)
    (first : Nat) (limit : Int) (batch : Int) : Option (List (List F)) :=
  let fs1 := filenames.filter (fun f => first ≤ ts f)
  let fs2 :=
    if 0 < limit then
      if (limit : Int) < (fs1.length : Int) then fs1.take limit.toNat else fs1
    else fs1
  (pyRange0 fs2.length batch).map
    (fun xs => xs.map (fun x => (fs2.drop x).take batch.toNat))

/-! Code-point comparison of strings, mirroring Python's `<` on `str`
(and the sort order of pandas index levels). -/

/-- Lexicographic code-point order on character lists. -/
def charListLt : List Char → List Char → Bool
  | [], [] => false
  | [], _ :: _ => true
  | _ :: _, [] => false
  | c :: cs, d :: ds =>
    if c.val.toNat < d.val.toNat then true
    else if d.val.toNat < c.val.toNat then false
    else charListLt cs ds

/-- Python-style `a < b` on strings (code-point lexicographic order). -/
def strLt (a b : String) : Bool := charListLt a.data b.data

/-- Insert into a sorted list (helper of `sortStrings`). -/
def insertStr (x : String) : List String → List String
  | [] => [x]
  | y :: ys => if strLt x y then x :: y :: ys else y :: insertStr x ys

/-- Insertion sort by code-point order; models the sorted order in which a
pandas `MultiIndex` stores its levels. -/
def sortStrings : List String → List String
  | [] => []
  | x :: xs => insertStr x (sortStrings xs)

/-- One comparison step of the lexicographic index minimum
(tuple comparison, timestamp first, then name by code points). -/
def idxMinStep (acc : Option (Nat × String)) (x : Nat × String) :
    Option (Nat × String) :=
  match acc with
  | none => some x
  | some m => if x.1 < m.1 || (x.1 == m.1 && strLt x.2 m.2) then some x else some m

/-- Lexicographic minimum of a `(date_utc, name)` MultiIndex, as computed
by `data.index.min()`. -/
def idxMinFold (l : List (Nat × String)) : Option (Nat × String) :=
  l.foldl idxMinStep none

/-- One comparison step of the lexicographic index maximum. -/
def idxMaxStep (acc : Option (Nat × String)) (x : Nat × String) :
    Option (Nat × String) :=
  match acc with
  | none => some x
  | some m => if m.1 < x.1 || (m.1 == x.1 && strLt m.2 x.2) then some x else some m

/-- Lexicographic maximum of a `(date_utc, name)` MultiIndex, as computed
by `data.index.max()`. -/
def idxMaxFold (l : List (Nat × String)) : Option (Nat × String) :=
  l.foldl idxMaxStep none

/-- Model of `pd.date_range(start, stop, freq="min")`: every whole minute from
`start` to `stop` inclusive. -/
def minuteRange (start stop : Nat) : List Nat :=
  (List.range (stop + 1 - start)).map (start + ·)

/-- The distinct station names of the table, sorted, as stored in
`data.index.levels[1]`. -/
def stationLevels {α : Type} (data : List ((Nat × String) × α)) : List String :=
  sortStrings ((data.map (fun r => r.1.2)).dedup)

/-- Row lookup during `reindex`: the value at key `k` of the original
table, `none` when the key is absent. -/
def lookupFirst {α : Type} (data : List ((Nat × String) × α)) (k : Nat × String) :
    Option α :=
  (data.find? (fun r => decide (r.1 = k))).map (fun r => r.2)

/-- Model of `__generate_missing_rows(data)`: reindex the table onto the product of
every minute in `[index.min()[0], index.max()[0]]` with every station name
level.  `none` models the failure on an empty table (`index.min()` yields
no usable bound). -/
def generateMissingRows {α : Type} (data : List ((Nat × String) × α)) :
    Option (List ((Nat × String) × Option α)) :=
  match idxMinFold (data.map (fun r => r.1)), idxMaxFold (data.map (fun r => r.1)) with
  | some mn, some mx =>
    let dateUtc := minuteRange mn.1 mx.1
    let names := stationLevels data
    some ((dateUtc.product names).map (fun k => (k, lookupFirst data k)))
  | _, _ => none

/-! ### `modules/fmi.py`

The weather service is modelled by `net : Nat × Nat → Option (List WMember)`:
for a `(starttime, endtime)` sub-range it either raises (`none`, covering
both the `TimeoutError` and the bare `except` arm of `__get_weather_range`)
or delivers the `wfs:member` elements of the returned XML document.
Parameter values are parsed with `float(...)` in the source and the service
sends the literal text `NaN` for unrecorded observations (notably one-hour
rainfall off the hour, as the comment in `__get_weather_data` notes), so a
parameter value is modelled as either `NaN` or an abstract numeric value —
no arithmetic is ever performed on them, only storage, NaN-ness
(`pd.fillna`) and identity matter. -/

/-- Result of `float(ParameterValue.text)`: the float `NaN` (which pandas
treats as a missing value) or an ordinary numeric value. -/
inductive PFloat where
  | nan : PFloat
  | val : Int → PFloat
deriving DecidableEq, Repr

/-- One `wfs:member` element: position text, parameter name, parameter
value and observation time. -/
structure WMember where
  pos : String
  pname : String
  pvalue : PFloat
  time : Nat
deriving DecidableEq, Repr

/-- The coordinate filter of `__get_weather_range` (trailing space as in
the source). -/
def helsinkiPos : String := "60.17523 24.94459 "

/-- The four target parameter names. -/
def targets : List String := ["T", "WS_10MIN", "P_SEA", "R_1H"]

/-- The `row_data` dictionary: collected values for the four target
parameters.  A field is `none` when its key is absent from the dictionary;
a present key may still hold the float `NaN`. -/
structure RowData where
  T : Option PFloat
  WS_10MIN : Option PFloat
  P_SEA : Option PFloat
  R_1H : Option PFloat
deriving DecidableEq, Repr

/-- The empty `row_data = {}`. -/
def RowData.empty : RowData := ⟨none, none, none, none⟩

/-- Model of `len(row_data)`: the number of keys present. -/
def RowData.size (rd : RowData) : Nat :=
  (if rd.T.isSome then 1 else 0) + (if rd.WS_10MIN.isSome then 1 else 0) +
    (if rd.P_SEA.isSome then 1 else 0) + (if rd.R_1H.isSome then 1 else 0)

/-- Assignment `row_data[pname] = pvalue` (only target names are ever assigned). -/
def RowData.set (rd : RowData) (pname : String) (v : PFloat) : RowData :=
  if pname = "T" then { rd with T := some v }
  else if pname = "WS_10MIN" then { rd with WS_10MIN := some v }
  else if pname = "P_SEA" then { rd with P_SEA := some v }
  else if pname = "R_1H" then { rd with R_1H := some v }
  else rd

/-- One row of the weather DataFrame: observation time and the collected
parameter values. -/
structure WRow where
  ts : Nat
  vals : RowData
deriving DecidableEq, Repr

/-- The entry of the `R_1H` column for one row as pandas sees it: `some v`
for an ordinary value, `none` when the entry is missing (the stored float
is `NaN`, or no key was stored). -/
def WRow.rainVal (r : WRow) : Option Int :=
  match r.vals.R_1H with
  | some (PFloat.val v) => some v
  | _ => none

/-- The member loop of `__get_weather_range`: accumulate target parameters
of members at Helsinki's coordinates into `row_data`; once all
`len(targets)` parameters have been recorded, append a row stamped with the
current member's observation time and reset `row_data`. -/
def parseMembers : List WMember → RowData → List WRow
  | [], _ => []
  | m :: rest, rd =>
    if m.pos = helsinkiPos then
      let rd2 := if m.pname ∈ targets then rd.set m.pname m.pvalue else rd
      if rd2.size = targets.length then
        ⟨m.time, rd2⟩ :: parseMembers rest RowData.empty
      else parseMembers rest rd2
    else parseMembers rest rd

/-- Model of `__get_weather_range(start, stop, api_key)`: `none` when the WFS call
raises (timeout or any other transport error), otherwise the rows parsed
from the returned XML members. -/
def getWeatherRange (net : Nat × Nat → Option (List WMember)) (r : Nat × Nat) :
    Option (List WRow) :=
  (net r).map (fun ms => parseMembers ms RowData.empty)

/-- Model of `pd.date_range(start, stop, freq=step)` for a step of `step` minutes:
`start, start + step, …` up to `stop` inclusive. -/
def dateRangeStep (start stop step : Nat) : List Nat :=
  if start ≤ stop then
    (List.range ((stop - start) / step + 1)).map (fun i => start + i * step)
  else []

/-- The fetch sub-ranges of `__get_weather_data`: each range start from
`pd.date_range` paired with `range_start + step`, clamped to `stop` when it
overshoots. -/
def subRanges (start stop step : Nat) : List (Nat × Nat) :=
  (dateRangeStep start stop step).map
    (fun s => (s, if stop < s + step then stop else s + step))

/-- The accumulation loop of `__get_weather_data`:
`data = data.append(__get_weather_range(...))`.  Appending the `None` of a
failed sub-range leaves the table unchanged (`pd.concat` silently drops
`None`), so a failed range contributes no rows. -/
def fetchedRows (net : Nat × Nat → Option (List WMember))
    (ranges : List (Nat × Nat)) : List WRow :=
  ranges.foldl (fun acc r => acc ++ ((getWeatherRange net r).getD [])) []

/-- One `fillna` write: overwrite a missing (NaN) rainfall entry with the
filler value when one is available, otherwise leave the row unchanged
(pandas leaves the NaN in place when there is nothing to fill with). -/
def fillEntry (r : WRow) (prev : Option Int) : WRow :=
  match prev with
  | some v => { r with vals := { r.vals with R_1H := some (PFloat.val v) } }
  | none => r

/-- Model of `data.R_1H.fillna(method="ffill")`: replace a missing (NaN)
rainfall entry by the most recent earlier valid one (`prev`); rows whose
rainfall is a proper value are kept and become the new `prev`. -/
def ffillR : List WRow → Option Int → List WRow
  | [], _ => []
  | r :: rs, prev =>
    match r.rainVal with
    | some v => r :: ffillR rs (some v)
    | none => fillEntry r prev :: ffillR rs prev

/-- Model of `data.R_1H.fillna(method="bfill")`: replace a missing rainfall value by
the next later one. -/
def bfillR (l : List WRow) : List WRow := (ffillR l.reverse none).reverse

/-- The two rainfall fills of `__get_weather_data`, in source order:
forward fill, then backward fill for rows before the first value. -/
def fillR1H (l : List WRow) : List WRow := bfillR (ffillR l none)

/-- Model of `data[~data.index.duplicated(keep="first")]`: drop every row whose
timestamp already occurred earlier (`seen` is the set of timestamps already
kept). -/
def dedupTs : List WRow → List Nat → List WRow
  | [], _ => []
  | r :: rs, seen =>
    if r.ts ∈ seen then dedupTs rs seen else r :: dedupTs rs (r.ts :: seen)

/-- Model of `__get_weather_data(start, stop, step, api_key)`: pad `stop` by 10
minutes, fetch every sub-range, forward/backward-fill the rainfall column
and drop duplicate timestamps keeping the first.  `none` models the
uncaught `AttributeError` raised by `data.R_1H` when no rows at all were
fetched (an empty `pd.DataFrame()` has no `R_1H` column). -/
def getWeatherData (net : Nat × Nat → Option (List WMember))
    (start stop step : Nat) : Option (List WRow) :=
  let rows := fetchedRows net (subRanges start (stop + 10) step)
  if rows = [] then none
  else some (dedupTs (fillR1H rows) [])

/-- The composition described by the spec for `__get_weather_data`:
concatenate, deduplicate exact-timestamp duplicates keeping the first
occurrence, then forward- and backward-fill the rainfall field. -/
def claimWeatherTable (rows : List WRow) : List WRow :=
  fillR1H (dedupTs rows [])

/-- Model of the `weather_data.reindex(..., method="nearest")` label selection of pandas
for one target `t`: the `pad` candidate (largest label `≤ t`), the
`backfill` candidate (smallest label `≥ t`), and the closer of the two,
with the backfill (later) label on a tie. -/
def nearestTs (wts : List Nat) (t : Nat) : Option Nat :=
  match (wts.filter (fun w => w ≤ t)).max?, (wts.filter (fun w => t ≤ w)).min? with
  | none, none => none
  | some l, none => some l
  | none, some r => some r
  | some l, some r => if t - l < r - t then some l else some r

/-- The weather row attached to one grid minute by the nearest-reindex. -/
def nearestRow (weather : List WRow) (t : Nat) : Option WRow :=
  (nearestTs (weather.map (fun r => r.ts)) t).bind
    (fun c => weather.find? (fun r => decide (r.ts = c)))

/-- Model of `add_weather_data(data, api_key)`: fetch weather for the span of the
grid's timestamps (step `"1d"` = 1440 minutes), reindex it onto the grid's
level-0 timestamps by nearest match, and attach the weather columns to
every grid row (`pd.concat(..., axis=1)` after forcing the weather index to
equal the grid index).  `none` models the failures on an empty grid and the
propagated failure of `__get_weather_data`. -/
def addWeatherData {ρ : Type} (net : Nat × Nat → Option (List WMember))
    (data : List ((Nat × String) × ρ)) :
    Option (List ((Nat × String) × ρ × Option WRow)) :=
  match idxMinFold (data.map (fun r => r.1)), idxMaxFold (data.map (fun r => r.1)) with
  | some mn, some mx =>
    match getWeatherData net mn.1 mx.1 1440 with
    | none => none
    | some weather =>
      let reindexed := (data.map (fun r => r.1.1)).map (fun t => nearestRow weather t)
      some ((data.zip reindexed).map (fun dw => (dw.1.1, (dw.1.2, dw.2))))
  | _, _ => none

/-- The tie-breaking rule attributed to the reindex by the spec: on an
exact tie the earlier weather timestamp wins. -/
def claimNearestTs (wts : List Nat) (t : Nat) : Option Nat :=
  match (wts.filter (fun w => w ≤ t)).max?, (wts.filter (fun w => t ≤ w)).min? with
  | none, none => none
  | some l, none => some l
  | none, some r => some r
  | some l, some r => if r - t < t - l then some r else some l

/-- Distance between two instants, in minutes. -/
def tdist (a b : Nat) : Nat := if a ≤ b then b - a else a - b

/-- A concrete valid service response: the four target parameters at one
observation time, all with proper values. -/
def wMembersA : List WMember :=
  [⟨helsinkiPos, "T", .val 1, 0⟩, ⟨helsinkiPos, "WS_10MIN", .val 2, 0⟩,
   ⟨helsinkiPos, "P_SEA", .val 3, 0⟩, ⟨helsinkiPos, "R_1H", .val 4, 0⟩]

/-- A concrete service response with complete observations at times 0
and 2, whose rows are equidistant from grid minute 1. -/
def cxMembers : List WMember :=
  [⟨helsinkiPos, "T", .val 1, 0⟩, ⟨helsinkiPos, "WS_10MIN", .val 2, 0⟩,
   ⟨helsinkiPos, "P_SEA", .val 3, 0⟩, ⟨helsinkiPos, "R_1H", .val 5, 0⟩,
   ⟨helsinkiPos, "T", .val 1, 2⟩, ⟨helsinkiPos, "WS_10MIN", .val 2, 2⟩,
   ⟨helsinkiPos, "P_SEA", .val 3, 2⟩, ⟨helsinkiPos, "R_1H", .val 7, 2⟩]

/-- The earlier of the two equidistant weather rows. -/
def cxEarly : WRow := ⟨0, ⟨some (.val 1), some (.val 2), some (.val 3), some (.val 5)⟩⟩

/-- The later of the two equidistant weather rows. -/
def cxLate : WRow := ⟨2, ⟨some (.val 1), some (.val 2), some (.val 3), some (.val 7)⟩⟩

/-- A service response observing all four parameters at times 0 (twice,
a duplicate timestamp) and 1, where the rainfall value is the float `NaN`
except in the second time-0 observation: the parser emits three rows, with
rainfall entries NaN, 5, NaN. -/
def cxNanMembers : List WMember :=
  [⟨helsinkiPos, "T", .val 1, 0⟩, ⟨helsinkiPos, "WS_10MIN", .val 2, 0⟩,
   ⟨helsinkiPos, "P_SEA", .val 3, 0⟩, ⟨helsinkiPos, "R_1H", .nan, 0⟩,
   ⟨helsinkiPos, "T", .val 1, 0⟩, ⟨helsinkiPos, "WS_10MIN", .val 2, 0⟩,
   ⟨helsinkiPos, "P_SEA", .val 3, 0⟩, ⟨helsinkiPos, "R_1H", .val 5, 0⟩,
   ⟨helsinkiPos, "T", .val 1, 1⟩, ⟨helsinkiPos, "WS_10MIN", .val 2, 1⟩,
   ⟨helsinkiPos, "P_SEA", .val 3, 1⟩, ⟨helsinkiPos, "R_1H", .nan, 1⟩]

/-- A service response for one observation time whose rainfall value is
the float `NaN` (as delivered off the hour). -/
def cxAllNanMembers : List WMember :=
  [⟨helsinkiPos, "T", .val 1, 0⟩, ⟨helsinkiPos, "WS_10MIN", .val 2, 0⟩,
   ⟨helsinkiPos, "P_SEA", .val 3, 0⟩, ⟨helsinkiPos, "R_1H", .nan, 0⟩]

/-- The row the parser emits for `cxAllNanMembers`: all four keys present,
rainfall stored as `NaN`. -/
def cxNanRow : WRow :=
  ⟨0, ⟨some (.val 1), some (.val 2), some (.val 3), some PFloat.nan⟩⟩


/-! ## Lemmas about the Python chunking -/

lemma pyRangePos_zero (step : Nat) : pyRangePos 0 step = [] := by
  unfold pyRangePos
  rcases Nat.eq_zero_or_pos step with h | h
  · subst h; rfl
  · have : (0 + step - 1) / step = 0 := Nat.div_eq_of_lt (by omega)
    rw [this]; rfl

lemma pyRangePos_cons (n step : Nat) (hs : 0 < step) (hn : 0 < n) :
    pyRangePos n step = 0 :: (pyRangePos (n - step) step).map (· + step) := by
  have hlen : (n + step - 1) / step = ((n - step) + step - 1) / step + 1 := by
    rcases Nat.le_total step n with h | h
    · have h1 : n - step + step - 1 = n - 1 := by omega
      have h2 : n + step - 1 = (n - 1) + step := by omega
      rw [h1, h2, Nat.add_div_right _ hs]
    · have h1 : n - step = 0 := by omega
      have h2 : n + step - 1 = (n - 1) + step := by omega
      have h3 : (n - 1) / step = 0 := Nat.div_eq_of_lt (by omega)
      have h4 : (0 + step - 1) / step = 0 := Nat.div_eq_of_lt (by omega)
      rw [h1, h2, Nat.add_div_right _ hs, h3, h4]
  unfold pyRangePos
  rw [hlen, List.range_succ_eq_map]
  simp only [List.map_cons, List.map_map, Nat.zero_mul]
  congr 1
  apply List.map_congr_left
  intro i _
  simp [Function.comp, Nat.succ_mul]

lemma pySlices_nil {F : Type} (step : Nat) : pySlices ([] : List F) step = [] := by
  simp [pySlices, pyRangePos_zero]

lemma pySlices_cons {F : Type} (l : List F) (step : Nat) (hs : 0 < step)
    (hl : l ≠ []) :
    pySlices l step = l.take step :: pySlices (l.drop step) step := by
  have hn : 0 < l.length := List.length_pos.mpr hl
  unfold pySlices
  rw [pyRangePos_cons l.length step hs hn]
  simp only [List.map_cons, List.drop_zero, List.map_map, List.length_drop]
  congr 1
  apply List.map_congr_left
  intro x _
  simp only [Function.comp]
  rw [Nat.add_comm x step, ← List.drop_drop]

lemma pySlices_eq_nil_iff {F : Type} (l : List F) (step : Nat) (hs : 0 < step) :
    pySlices l step = [] ↔ l = [] := by
  constructor
  · intro h
    by_contra hne
    rw [pySlices_cons l step hs hne] at h
    exact List.cons_ne_nil _ _ h
  · intro h; subst h; exact pySlices_nil step

lemma pySlices_flatten {F : Type} (step : Nat) (hs : 0 < step) :
    ∀ l : List F, (pySlices l step).flatten = l
  | [] => by simp [pySlices_nil]
  | a :: as => by
    rw [pySlices_cons (a :: as) step hs (List.cons_ne_nil a as), List.flatten_cons,
      pySlices_flatten step hs ((a :: as).drop step)]
    exact List.take_append_drop step (a :: as)
termination_by l => l.length
decreasing_by
  simp only [List.length_drop, List.length_cons]
  omega

lemma pySlices_length_le {F : Type} (l : List F) (step : Nat) :
    ∀ b ∈ pySlices l step, b.length ≤ step := by
  intro b hb
  obtain ⟨x, _, rfl⟩ := List.mem_map.mp hb
  rw [List.length_take]
  exact min_le_left _ _

lemma pySlices_dropLast {F : Type} (step : Nat) (hs : 0 < step) :
    ∀ l : List F, ∀ b ∈ (pySlices l step).dropLast, b.length = step
  | [] => by simp [pySlices_nil]
  | a :: as => by
    intro b hb
    rw [pySlices_cons (a :: as) step hs (List.cons_ne_nil a as)] at hb
    rcases Classical.em (pySlices ((a :: as).drop step) step = []) with h | h
    · rw [h] at hb
      simp at hb
    · rw [List.dropLast_cons_of_ne_nil h] at hb
      rcases List.mem_cons.mp hb with rfl | hb2
      · have hlong : step < (a :: as).length := by
          by_contra hc
          have : (a :: as).drop step = [] := List.drop_eq_nil_of_le (by omega)
          rw [this, pySlices_nil] at h
          exact h rfl
        rw [List.length_take]
        omega
      · exact pySlices_dropLast step hs ((a :: as).drop step) b hb2
termination_by l => l.length
decreasing_by
  simp only [List.length_drop, List.length_cons]
  omega

/-! ## Lemmas about the index minimum / maximum -/

lemma idxMinFold_go (l : List (Nat × String)) :
    ∀ m : Nat × String, ∃ p, l.foldl idxMinStep (some m) = some p ∧
      (p = m ∨ p ∈ l) ∧ p.1 ≤ m.1 ∧ ∀ q ∈ l, p.1 ≤ q.1 := by
  induction l with
  | nil => intro m; exact ⟨m, rfl, Or.inl rfl, le_refl _, by simp⟩
  | cons x xs ih =>
    intro m
    have hstep : ∃ m2, idxMinStep (some m) x = some m2 ∧ (m2 = x ∨ m2 = m) ∧
        m2.1 ≤ m.1 ∧ m2.1 ≤ x.1 := by
      rcases Classical.em ((x.1 < m.1 || (x.1 == m.1 && strLt x.2 m.2)) = true) with h | h
      · have hx : x.1 ≤ m.1 := by
          simp only [Bool.or_eq_true, decide_eq_true_eq, Bool.and_eq_true,
            beq_iff_eq] at h
          rcases h with h | ⟨h, _⟩ <;> omega
        exact ⟨x, by simp [idxMinStep, h], Or.inl rfl, hx, le_refl _⟩
      · have hx : m.1 ≤ x.1 := by
          by_contra hc
          exact h (by simp [show x.1 < m.1 by omega])
        exact ⟨m, by simp [idxMinStep, h], Or.inr rfl, le_refl _, hx⟩
    obtain ⟨m2, hm2, hcases, hle_m, hle_x⟩ := hstep
    obtain ⟨p, hp, hmem, hple, hq⟩ := ih m2
    refine ⟨p, ?_, ?_, ?_, ?_⟩
    · rw [List.foldl_cons, hm2]; exact hp
    · rcases hmem with rfl | hin
      · rcases hcases with rfl | rfl
        · exact Or.inr (List.mem_cons_self _ _)
        · exact Or.inl rfl
      · exact Or.inr (List.mem_cons_of_mem _ hin)
    · exact le_trans hple hle_m
    · intro q hqmem
      rcases List.mem_cons.mp hqmem with rfl | hin
      · exact le_trans hple hle_x
      · exact hq q hin

lemma idxMinFold_min (l : List (Nat × String)) (hne : l ≠ []) :
    ∃ p, idxMinFold l = some p ∧ p ∈ l ∧ ∀ q ∈ l, p.1 ≤ q.1 := by
  cases l with
  | nil => exact absurd rfl hne
  | cons x xs =>
    obtain ⟨p, hp, hmem, hple, hq⟩ := idxMinFold_go xs x
    refine ⟨p, hp, ?_, ?_⟩
    · rcases hmem with rfl | hin
      · exact List.mem_cons_self _ _
      · exact List.mem_cons_of_mem _ hin
    · intro q hqmem
      rcases List.mem_cons.mp hqmem with rfl | hin
      · exact hple
      · exact hq q hin

lemma idxMaxFold_go (l : List (Nat × String)) :
    ∀ m : Nat × String, ∃ p, l.foldl idxMaxStep (some m) = some p ∧
      (p = m ∨ p ∈ l) ∧ m.1 ≤ p.1 ∧ ∀ q ∈ l, q.1 ≤ p.1 := by
  induction l with
  | nil => intro m; exact ⟨m, rfl, Or.inl rfl, le_refl _, by simp⟩
  | cons x xs ih =>
    intro m
    have hstep : ∃ m2, idxMaxStep (some m) x = some m2 ∧ (m2 = x ∨ m2 = m) ∧
        m.1 ≤ m2.1 ∧ x.1 ≤ m2.1 := by
      rcases Classical.em ((m.1 < x.1 || (m.1 == x.1 && strLt m.2 x.2)) = true) with h | h
      · have hx : m.1 ≤ x.1 := by
          simp only [Bool.or_eq_true, decide_eq_true_eq, Bool.and_eq_true,
            beq_iff_eq] at h
          rcases h with h | ⟨h, _⟩ <;> omega
        exact ⟨x, by simp [idxMaxStep, h], Or.inl rfl, hx, le_refl _⟩
      · have hx : x.1 ≤ m.1 := by
          by_contra hc
          exact h (by simp [show m.1 < x.1 by omega])
        exact ⟨m, by simp [idxMaxStep, h], Or.inr rfl, le_refl _, hx⟩
    obtain ⟨m2, hm2, hcases, hle_m, hle_x⟩ := hstep
    obtain ⟨p, hp, hmem, hple, hq⟩ := ih m2
    refine ⟨p, ?_, ?_, ?_, ?_⟩
    · rw [List.foldl_cons, hm2]; exact hp
    · rcases hmem with rfl | hin
      · rcases hcases with rfl | rfl
        · exact Or.inr (List.mem_cons_self _ _)
        · exact Or.inl rfl
      · exact Or.inr (List.mem_cons_of_mem _ hin)
    · exact le_trans hle_m hple
    · intro q hqmem
      rcases List.mem_cons.mp hqmem with rfl | hin
      · exact le_trans hle_x hple
      · exact hq q hin

lemma idxMaxFold_max (l : List (Nat × String)) (hne : l ≠ []) :
    ∃ p, idxMaxFold l = some p ∧ p ∈ l ∧ ∀ q ∈ l, q.1 ≤ p.1 := by
  cases l with
  | nil => exact absurd rfl hne
  | cons x xs =>
    obtain ⟨p, hp, hmem, hple, hq⟩ := idxMaxFold_go xs x
    refine ⟨p, hp, ?_, ?_⟩
    · rcases hmem with rfl | hin
      · exact List.mem_cons_self _ _
      · exact List.mem_cons_of_mem _ hin
    · intro q hqmem
      rcases List.mem_cons.mp hqmem with rfl | hin
      · exact hple
      · exact hq q hin

/-! ## Lemmas about the minute grid and the station levels -/

lemma mem_minuteRange {a b m : Nat} : m ∈ minuteRange a b ↔ a ≤ m ∧ m ≤ b := by
  unfold minuteRange
  simp only [List.mem_map, List.mem_range]
  constructor
  · rintro ⟨i, hi, rfl⟩; omega
  · rintro ⟨h1, h2⟩; exact ⟨m - a, by omega, by omega⟩

lemma length_minuteRange (a b : Nat) : (minuteRange a b).length = b + 1 - a := by
  simp [minuteRange]

lemma nodup_minuteRange (a b : Nat) : (minuteRange a b).Nodup := by
  unfold minuteRange
  exact (List.nodup_range _).map (fun i j h => by omega)

lemma insertStr_perm (x : String) (l : List String) :
    (insertStr x l).Perm (x :: l) := by
  induction l with
  | nil => simp [insertStr]
  | cons y ys ih =>
    unfold insertStr
    rcases Classical.em (strLt x y = true) with h | h
    · rw [if_pos h]
    · rw [if_neg h]
      exact ((ih.cons y).trans (List.Perm.swap x y ys))

lemma sortStrings_perm (l : List String) : (sortStrings l).Perm l := by
  induction l with
  | nil => simp [sortStrings]
  | cons x xs ih =>
    unfold sortStrings
    exact (insertStr_perm x (sortStrings xs)).trans (ih.cons x)

lemma stationLevels_nodup {α : Type} (data : List ((Nat × String) × α)) :
    (stationLevels data).Nodup :=
  ((sortStrings_perm _).symm.nodup (List.nodup_dedup _))

lemma mem_stationLevels {α : Type} (data : List ((Nat × String) × α)) (s : String) :
    s ∈ stationLevels data ↔ s ∈ data.map (fun r => r.1.2) := by
  unfold stationLevels
  rw [(sortStrings_perm _).mem_iff]
  exact List.mem_dedup

lemma length_stationLevels {α : Type} (data : List ((Nat × String) × α)) :
    (stationLevels data).length = ((data.map (fun r => r.1.2)).dedup).length :=
  (sortStrings_perm _).length_eq

/-! ## Lemmas about the per-file loader -/

lemma getBikeData_go {F R : Type} (parse : F → Option (List R)) :
    ∀ (files : List F) (acc : List R × Nat),
      files.foldl
        (fun acc file =>
          match parse file with
          | some t => (acc.1 ++ t, acc.2)
          | none => (acc.1, acc.2 + 1)) acc =
      (acc.1 ++ (files.filterMap parse).flatten,
        acc.2 + files.countP (fun f => (parse f).isNone)) := by
  intro files
  induction files with
  | nil => intro acc; simp
  | cons f fs ih =>
    intro acc
    rcases hf : parse f with _ | t
    · simp only [List.foldl_cons, hf]
      rw [ih]
      have hcount : (f :: fs).countP (fun f => (parse f).isNone) =
          fs.countP (fun f => (parse f).isNone) + 1 :=
        List.countP_cons_of_pos _ _ (by simp [hf])
      have hmap : (f :: fs).filterMap parse = fs.filterMap parse :=
        List.filterMap_cons_none hf
      rw [hcount, hmap]
      ring_nf
    · simp only [List.foldl_cons, hf]
      rw [ih]
      have hcount : (f :: fs).countP (fun f => (parse f).isNone) =
          fs.countP (fun f => (parse f).isNone) :=
        List.countP_cons_of_neg _ _ (by simp [hf])
      have hmap : (f :: fs).filterMap parse = t :: fs.filterMap parse :=
        List.filterMap_cons_some hf
      rw [hcount, hmap, List.flatten_cons, List.append_assoc]

lemma getBikeData_eq {F R : Type} (parse : F → Option (List R)) (files : List F) :
    getBikeData parse files =
      ((files.filterMap parse).flatten, files.countP (fun f => (parse f).isNone)) := by
  unfold getBikeData
  rw [getBikeData_go]
  simp

/-! ## Lemmas about the weather parser and pipeline -/

lemma RowData.size_eq_four {rd : RowData} (h : rd.size = 4) :
    rd.T.isSome ∧ rd.WS_10MIN.isSome ∧ rd.P_SEA.isSome ∧ rd.R_1H.isSome := by
  unfold RowData.size at h
  rcases h1 : rd.T.isSome <;> rcases h2 : rd.WS_10MIN.isSome <;>
    rcases h3 : rd.P_SEA.isSome <;> rcases h4 : rd.R_1H.isSome <;>
    simp_all

/-- Every row the parser emits has all four parameter fields present. -/
lemma parseMembers_complete :
    ∀ (ms : List WMember) (rd : RowData), ∀ r ∈ parseMembers ms rd,
      r.vals.T.isSome ∧ r.vals.WS_10MIN.isSome ∧ r.vals.P_SEA.isSome ∧
        r.vals.R_1H.isSome := by
  intro ms
  induction ms with
  | nil => intro rd r hr; simp [parseMembers] at hr
  | cons m rest ih =>
    intro rd r hr
    unfold parseMembers at hr
    rcases Classical.em (m.pos = helsinkiPos) with hpos | hpos
    · rw [if_pos hpos] at hr
      set rd2 := if m.pname ∈ targets then rd.set m.pname m.pvalue else rd with hrd2
      rcases Classical.em (rd2.size = targets.length) with hsz | hsz
      · rw [if_pos hsz] at hr
        rcases List.mem_cons.mp hr with rfl | hr2
        · exact RowData.size_eq_four hsz
        · exact ih RowData.empty r hr2
      · rw [if_neg hsz] at hr
        exact ih rd2 r hr
    · rw [if_neg hpos] at hr
      exact ih rd r hr

/-! Unfolding equations of the forward fill. -/

lemma ffillR_cons_someVal (x : WRow) (xs : List WRow) (prev : Option Int)
    (v : Int) (hv : x.rainVal = some v) :
    ffillR (x :: xs) prev = x :: ffillR xs (some v) := by
  conv_lhs => unfold ffillR
  rw [hv]

lemma ffillR_cons_noneNone (x : WRow) (xs : List WRow) (hv : x.rainVal = none) :
    ffillR (x :: xs) none = x :: ffillR xs none := by
  conv_lhs => unfold ffillR
  rw [hv]
  rfl

lemma ffillR_cons_noneSome (x : WRow) (xs : List WRow) (v : Int)
    (hv : x.rainVal = none) :
    ffillR (x :: xs) (some v) =
      { x with vals := { x.vals with R_1H := some (PFloat.val v) } } ::
        ffillR xs (some v) := by
  conv_lhs => unfold ffillR
  rw [hv]
  rfl

lemma ffillR_length : ∀ (l : List WRow) (prev : Option Int),
    (ffillR l prev).length = l.length := by
  intro l
  induction l with
  | nil => intro prev; rfl
  | cons x xs ih =>
    intro prev
    rcases hv : x.rainVal with _ | v
    · rcases prev with _ | pv
      · rw [ffillR_cons_noneNone x xs hv]
        simp [ih]
      · rw [ffillR_cons_noneSome x xs pv hv]
        simp [ih]
    · rw [ffillR_cons_someVal x xs prev v hv]
      simp [ih]

/-- Once a valid rainfall value has been seen, every later row of the
forward-filled column carries a value. -/
lemma ffillR_allSome : ∀ (l : List WRow) (v : Int),
    ∀ r ∈ ffillR l (some v), r.rainVal.isSome := by
  intro l
  induction l with
  | nil => intro v r hr; simp [ffillR] at hr
  | cons x xs ih =>
    intro v r hr
    rcases hv : x.rainVal with _ | w
    · rw [ffillR_cons_noneSome x xs v hv] at hr
      rcases List.mem_cons.mp hr with rfl | hr2
      · simp [WRow.rainVal]
      · exact ih v r hr2
    · rw [ffillR_cons_someVal x xs (some v) w hv] at hr
      rcases List.mem_cons.mp hr with rfl | hr2
      · rw [hv]
        rfl
      · exact ih w r hr2

lemma getLast?_mem {α : Type} : ∀ (l : List α) (a : α), l.getLast? = some a → a ∈ l := by
  intro l
  induction l with
  | nil => intro a h; exact Option.noConfusion h
  | cons x xs ih =>
    intro a h
    cases xs with
    | nil =>
      have hx : x = a := by simpa using h
      rw [hx]
      exact List.mem_cons_self _ _
    | cons y ys =>
      rw [List.getLast?_cons_cons] at h
      exact List.mem_cons_of_mem _ (ih a h)

lemma getLast?_cons_ne {α : Type} (a : α) (l : List α) (h : l ≠ []) :
    (a :: l).getLast? = l.getLast? := by
  cases l with
  | nil => exact absurd rfl h
  | cons b t => exact List.getLast?_cons_cons

/-- If some row of the column carries a valid rainfall value, the last row
of the forward-filled column does. -/
lemma ffillR_getLast_isSome : ∀ (l : List WRow) (prev : Option Int),
    (∃ r ∈ l, r.rainVal.isSome) →
    ∃ w, (ffillR l prev).getLast? = some w ∧ w.rainVal.isSome := by
  intro l
  induction l with
  | nil =>
    intro prev hex
    rcases hex with ⟨r, hr, _⟩
    simp at hr
  | cons x xs ih =>
    intro prev hex
    rcases hv : x.rainVal with _ | v
    · have hex2 : ∃ r ∈ xs, r.rainVal.isSome := by
        rcases hex with ⟨r, hr, hrs⟩
        rcases List.mem_cons.mp hr with rfl | hin
        · rw [hv] at hrs
          exact absurd hrs (by simp)
        · exact ⟨r, hin, hrs⟩
      have hxs : xs ≠ [] := by
        rintro rfl
        rcases hex2 with ⟨r, hr, _⟩
        simp at hr
      rcases prev with _ | pv
      · obtain ⟨w, hw1, hw2⟩ := ih none hex2
        have hne : ffillR xs none ≠ [] := by
          intro hc
          have hlen : xs.length = 0 := by
            rw [← ffillR_length xs none, hc]
            rfl
          exact hxs (List.length_eq_zero.mp hlen)
        exact ⟨w, by rw [ffillR_cons_noneNone x xs hv,
          getLast?_cons_ne _ _ hne, hw1], hw2⟩
      · obtain ⟨w, hw1, hw2⟩ := ih (some pv) hex2
        have hne : ffillR xs (some pv) ≠ [] := by
          intro hc
          have hlen : xs.length = 0 := by
            rw [← ffillR_length xs (some pv), hc]
            rfl
          exact hxs (List.length_eq_zero.mp hlen)
        exact ⟨w, by rw [ffillR_cons_noneSome x xs pv hv,
          getLast?_cons_ne _ _ hne, hw1], hw2⟩
    · cases xs with
      | nil =>
        refine ⟨x, ?_, by rw [hv]; rfl⟩
        rw [ffillR_cons_someVal x [] prev v hv]
        rfl
      | cons y ys =>
        have hne : ffillR (y :: ys) (some v) ≠ [] := by
          intro hc
          have hlen := ffillR_length (y :: ys) (some v)
          rw [hc] at hlen
          simp at hlen
        rcases hgl : (ffillR (y :: ys) (some v)).getLast? with _ | w
        · exact absurd (List.getLast?_eq_none_iff.mp hgl) hne
        · refine ⟨w, ?_, ?_⟩
          · rw [ffillR_cons_someVal x (y :: ys) prev v hv,
              getLast?_cons_ne _ _ hne, hgl]
          · exact ffillR_allSome (y :: ys) v w (getLast?_mem _ w hgl)

/-- If any fetched row carries a valid rainfall value, the forward fill
followed by the backward fill leaves no missing rainfall entry. -/
lemma fillR1H_allSome (l : List WRow) (hex : ∃ r ∈ l, r.rainVal.isSome) :
    ∀ r ∈ fillR1H l, r.rainVal.isSome := by
  obtain ⟨w, hw1, hw2⟩ := ffillR_getLast_isSome l none hex
  have hhead : (ffillR l none).reverse.head? = some w := by
    rw [List.head?_reverse]
    exact hw1
  rcases hrev : (ffillR l none).reverse with _ | ⟨h1, t1⟩
  · rw [hrev] at hhead
    exact absurd hhead (by simp)
  · rw [hrev] at hhead
    have h1w : h1 = w := by simpa using hhead
    have h1some : h1.rainVal.isSome := by
      rw [h1w]
      exact hw2
    obtain ⟨v, hv⟩ := Option.isSome_iff_exists.mp h1some
    intro r hr
    unfold fillR1H bfillR at hr
    rw [hrev, ffillR_cons_someVal h1 t1 none v hv, List.mem_reverse] at hr
    rcases List.mem_cons.mp hr with rfl | hr2
    · rw [hv]
      rfl
    · exact ffillR_allSome t1 v r hr2

/-- Rows kept by the duplicate filter are rows of the input. -/
lemma dedupTs_subset :
    ∀ (l : List WRow) (seen : List Nat), ∀ r ∈ dedupTs l seen, r ∈ l := by
  intro l
  induction l with
  | nil => intro seen r hr; simp [dedupTs] at hr
  | cons x xs ih =>
    intro seen r hr
    unfold dedupTs at hr
    rcases Classical.em (x.ts ∈ seen) with h | h
    · rw [if_pos h] at hr
      exact List.mem_cons_of_mem _ (ih seen r hr)
    · rw [if_neg h] at hr
      rcases List.mem_cons.mp hr with rfl | hr2
      · exact List.mem_cons_self _ _
      · exact List.mem_cons_of_mem _ (ih _ r hr2)

/-- After the duplicate filter every timestamp occurs at most once, and none
of the timestamps in `seen` survives. -/
lemma dedupTs_nodup :
    ∀ (l : List WRow) (seen : List Nat),
      ((dedupTs l seen).map (fun r => r.ts)).Nodup ∧
        ∀ r ∈ dedupTs l seen, r.ts ∉ seen := by
  intro l
  induction l with
  | nil => intro seen; simp [dedupTs]
  | cons x xs ih =>
    intro seen
    unfold dedupTs
    rcases Classical.em (x.ts ∈ seen) with h | h
    · rw [if_pos h]
      exact ih seen
    · rw [if_neg h]
      obtain ⟨hnd, hnotin⟩ := ih (x.ts :: seen)
      refine ⟨?_, ?_⟩
      · rw [List.map_cons, List.nodup_cons]
        refine ⟨?_, hnd⟩
        intro hmem
        obtain ⟨r, hr, hts⟩ := List.mem_map.mp hmem
        exact (hnotin r hr) (hts ▸ List.mem_cons_self _ _)
      · intro r hr
        rcases List.mem_cons.mp hr with rfl | hr2
        · exact h
        · intro hc
          exact (hnotin r hr2) (List.mem_cons_of_mem _ hc)

/-- The fetch loop concatenates each sub-range's rows; a `None` sub-range
contributes nothing. -/
lemma fetchedRows_eq_flatten (net : Nat × Nat → Option (List WMember)) :
    ∀ ranges : List (Nat × Nat),
      fetchedRows net ranges =
        (ranges.map (fun r => (getWeatherRange net r).getD [])).flatten := by
  have go : ∀ (ranges : List (Nat × Nat)) (acc : List WRow),
      ranges.foldl (fun acc r => acc ++ ((getWeatherRange net r).getD [])) acc =
        acc ++ (ranges.map (fun r => (getWeatherRange net r).getD [])).flatten := by
    intro ranges
    induction ranges with
    | nil => intro acc; simp
    | cons r rs ih =>
      intro acc
      simp only [List.foldl_cons, List.map_cons, List.flatten_cons]
      rw [ih, List.append_assoc]
  intro ranges
  unfold fetchedRows
  rw [go]
  simp

/-- Every row fetched through the real parser has a complete set of
parameter values; in particular the rainfall field is never missing. -/
lemma fetchedRows_complete (net : Nat × Nat → Option (List WMember))
    (ranges : List (Nat × Nat)) :
    ∀ r ∈ fetchedRows net ranges,
      r.vals.T.isSome ∧ r.vals.WS_10MIN.isSome ∧ r.vals.P_SEA.isSome ∧
        r.vals.R_1H.isSome := by
  intro r hr
  rw [fetchedRows_eq_flatten] at hr
  obtain ⟨block, hblock, hrin⟩ := List.mem_flatten.mp hr
  obtain ⟨rg, _, rfl⟩ := List.mem_map.mp hblock
  rcases hnet : net rg with _ | ms
  · rw [show getWeatherRange net rg = none by simp [getWeatherRange, hnet]] at hrin
    simp at hrin
  · rw [show getWeatherRange net rg = some (parseMembers ms RowData.empty) by
      simp [getWeatherRange, hnet]] at hrin
    exact parseMembers_complete ms RowData.empty r hrin

/-! ## Lemmas about the nearest-timestamp selection -/

lemma natMax?_spec {l : List Nat} {a : Nat} (h : l.max? = some a) :
    a ∈ l ∧ ∀ b ∈ l, b ≤ a :=
  (List.max?_eq_some_iff (fun _ => le_refl _) (fun a b => max_choice a b)
    (fun _ _ _ => max_le_iff)).mp h

lemma natMin?_spec {l : List Nat} {a : Nat} (h : l.min? = some a) :
    a ∈ l ∧ ∀ b ∈ l, a ≤ b :=
  (List.min?_eq_some_iff (fun _ => le_refl _) (fun a b => min_choice a b)
    (fun _ _ _ => le_min_iff)).mp h

/-! ## Generic helper lemmas -/

lemma product_eq_sprod {α β : Type} (l₁ : List α) (l₂ : List β) :
    l₁.product l₂ = l₁ ×ˢ l₂ := rfl

lemma count_eq_one_of_nodup {α : Type} [BEq α] [LawfulBEq α] :
    ∀ (l : List α) (a : α), l.Nodup → a ∈ l → l.count a = 1 := by
  intro l a hnd hmem
  induction l with
  | nil => simp at hmem
  | cons x xs ih =>
    rw [List.count_cons]
    rcases List.mem_cons.mp hmem with rfl | hin
    · have hnotin : a ∉ xs := (List.nodup_cons.mp hnd).1
      rw [List.count_eq_zero.mpr hnotin]
      simp
    · rw [ih (List.nodup_cons.mp hnd).2 hin]
      have hne2 : x ≠ a := by
        rintro rfl
        exact (List.nodup_cons.mp hnd).1 hin
      simp [hne2]

/-! ## Claim theorems -/

/-- C1: for a non-empty station table (with the `(timestamp, station)` key
unique, as the data model requires and as pandas `reindex` demands),
`__generate_missing_rows` returns a table with exactly
`(number of whole minutes between the minimum and maximum timestamp,
inclusive) × (number of distinct station names)` rows; every
`(minute, station)` pair of that Cartesian product appears exactly once
among the output keys, and a pair absent from the input is present as a row
with an all-missing value rather than omitted. -/
theorem generateMissingRows_grid {α : Type} (data : List ((Nat × String) × α))
    (hne : data ≠ []) (_hkeys : (data.map (fun r => r.1)).Nodup) :
    ∃ out mn mx,
      generateMissingRows data = some out ∧
      mn ∈ data.map (fun r => r.1.1) ∧ (∀ t ∈ data.map (fun r => r.1.1), mn ≤ t) ∧
      mx ∈ data.map (fun r => r.1.1) ∧ (∀ t ∈ data.map (fun r => r.1.1), t ≤ mx) ∧
      out.length = (mx - mn + 1) * ((data.map (fun r => r.1.2)).dedup).length ∧
      (∀ m s, mn ≤ m → m ≤ mx → s ∈ data.map (fun r => r.1.2) →
        (out.map (fun r => r.1)).count (m, s) = 1) ∧
      (∀ m s, mn ≤ m → m ≤ mx → s ∈ data.map (fun r => r.1.2) →
        lookupFirst data (m, s) = none → ((m, s), (none : Option α)) ∈ out) := by
  have hidx : data.map (fun r => r.1) ≠ [] := by
    intro hcon
    exact hne (List.map_eq_nil_iff.mp hcon)
  obtain ⟨pmn, hpmn, hmnmem, hmnle⟩ := idxMinFold_min _ hidx
  obtain ⟨pmx, hpmx, hmxmem, hmxle⟩ := idxMaxFold_max _ hidx
  have hmnmx : pmn.1 ≤ pmx.1 := hmnle pmx hmxmem
  set names := stationLevels data with hnames
  set prod := (minuteRange pmn.1 pmx.1).product names with hprod
  set out := prod.map (fun k => (k, lookupFirst data k)) with hout
  have houtkeys : out.map (fun r => r.1) = prod := by
    rw [hout, List.map_map]
    exact List.map_id _
  have hprodmem : ∀ m s, (m, s) ∈ prod ↔
      (pmn.1 ≤ m ∧ m ≤ pmx.1) ∧ s ∈ data.map (fun r => r.1.2) := by
    intro m s
    rw [hprod, product_eq_sprod, List.mem_product, mem_minuteRange, mem_stationLevels]
  have hprodnd : prod.Nodup :=
    (nodup_minuteRange _ _).product (stationLevels_nodup data)
  refine ⟨out, pmn.1, pmx.1, ?_, ?_, ?_, ?_, ?_, ?_, ?_, ?_⟩
  · simp only [generateMissingRows]
    rw [hpmn, hpmx]
  · obtain ⟨q, hq, hq1⟩ := List.mem_map.mp hmnmem
    exact List.mem_map.mpr ⟨q, hq, by rw [← hq1]⟩
  · intro t ht
    obtain ⟨q, hq, hq1⟩ := List.mem_map.mp ht
    exact hq1 ▸ hmnle q.1 (List.mem_map.mpr ⟨q, hq, rfl⟩)
  · obtain ⟨q, hq, hq1⟩ := List.mem_map.mp hmxmem
    exact List.mem_map.mpr ⟨q, hq, by rw [← hq1]⟩
  · intro t ht
    obtain ⟨q, hq, hq1⟩ := List.mem_map.mp ht
    exact hq1 ▸ hmxle q.1 (List.mem_map.mpr ⟨q, hq, rfl⟩)
  · rw [hout, List.length_map, hprod, product_eq_sprod, List.length_product,
      length_minuteRange, length_stationLevels]
    congr 1
    omega
  · intro m s h1 h2 h3
    rw [houtkeys]
    exact count_eq_one_of_nodup prod (m, s) hprodnd ((hprodmem m s).mpr ⟨⟨h1, h2⟩, h3⟩)
  · intro m s h1 h2 h3 hlook
    have hmem : (m, s) ∈ prod := (hprodmem m s).mpr ⟨⟨h1, h2⟩, h3⟩
    rw [hout]
    exact List.mem_map.mpr ⟨(m, s), hmem, by rw [hlook]⟩

/-- Witness for C1 at a concrete two-row table. -/
theorem generateMissingRows_grid_w :
    generateMissingRows [((1, "A"), (5 : Nat)), ((2, "B"), 7)] =
      some [((1, "A"), some 5), ((1, "B"), none), ((2, "A"), none),
        ((2, "B"), some 7)] ∧
    (∃ out mn mx,
      generateMissingRows [((1, "A"), (5 : Nat)), ((2, "B"), 7)] = some out ∧
      mn ∈ [((1, "A"), (5 : Nat)), ((2, "B"), 7)].map (fun r => r.1.1) ∧
      (∀ t ∈ [((1, "A"), (5 : Nat)), ((2, "B"), 7)].map (fun r => r.1.1), mn ≤ t) ∧
      mx ∈ [((1, "A"), (5 : Nat)), ((2, "B"), 7)].map (fun r => r.1.1) ∧
      (∀ t ∈ [((1, "A"), (5 : Nat)), ((2, "B"), 7)].map (fun r => r.1.1), t ≤ mx) ∧
      out.length = (mx - mn + 1) *
        (([((1, "A"), (5 : Nat)), ((2, "B"), 7)].map (fun r => r.1.2)).dedup).length ∧
      (∀ m s, mn ≤ m → m ≤ mx →
        s ∈ [((1, "A"), (5 : Nat)), ((2, "B"), 7)].map (fun r => r.1.2) →
        ((out.map (fun r => r.1)).count (m, s) = 1)) ∧
      (∀ m s, mn ≤ m → m ≤ mx →
        s ∈ [((1, "A"), (5 : Nat)), ((2, "B"), 7)].map (fun r => r.1.2) →
        lookupFirst [((1, "A"), (5 : Nat)), ((2, "B"), 7)] (m, s) = none →
        ((m, s), (none : Option Nat)) ∈ out)) :=
  ⟨by decide,
    generateMissingRows_grid [((1, "A"), (5 : Nat)), ((2, "B"), 7)]
      (by decide) (by decide)⟩

/-- C2: for a positive batch size, `__trim_split_filenames` succeeds, its
batches concatenate (in order) to the input filtered to timestamps
`≥ first` and, when `limit > 0`, truncated to the first `limit` entries;
no batch exceeds `batch` entries and every batch except possibly the last
has exactly `batch` entries. -/
theorem trimSplitFilenames_batches {F : Type} (ts : F → Nat) (filenames : List F)
    (first : Nat) (limit : Int) (batch : Int) (hb : 0 < batch) :
    ∃ bs, trimSplitFilenames ts filenames first limit batch = some bs ∧
      bs.flatten =
        (if 0 < limit then
          (filenames.filter (fun f => first ≤ ts f)).take limit.toNat
         else filenames.filter (fun f => first ≤ ts f)) ∧
      (∀ b ∈ bs, b.length ≤ batch.toNat) ∧
      (∀ b ∈ bs.dropLast, b.length = batch.toNat) := by
  have hb0 : ¬ batch = 0 := by omega
  have hbt : 0 < batch.toNat := by omega
  set fs1 := filenames.filter (fun f => first ≤ ts f) with hfs1
  set fs2 := (if 0 < limit then
      (if (limit : Int) < (fs1.length : Int) then fs1.take limit.toNat else fs1)
    else fs1) with hfs2
  have heq : trimSplitFilenames ts filenames first limit batch =
      some (pySlices fs2 batch.toNat) := by
    simp only [trimSplitFilenames, pyRange0, ← hfs1, ← hfs2]
    rw [if_neg hb0, if_pos hb]
    rfl
  have hfseq : fs2 = (if 0 < limit then fs1.take limit.toNat else fs1) := by
    rw [hfs2]
    rcases Classical.em (0 < limit) with hl | hl
    · rw [if_pos hl, if_pos hl]
      rcases Classical.em ((limit : Int) < (fs1.length : Int)) with hlen | hlen
      · rw [if_pos hlen]
      · rw [if_neg hlen]
        exact (List.take_of_length_le (by omega)).symm
    · rw [if_neg hl, if_neg hl]
  exact ⟨pySlices fs2 batch.toNat, heq,
    by rw [pySlices_flatten _ hbt, hfseq],
    pySlices_length_le _ _,
    pySlices_dropLast _ hbt _⟩

/-- Witness for C2 at a concrete filename list. -/
theorem trimSplitFilenames_batches_w :
    trimSplitFilenames (fun n : Nat => n) [5, 1, 7, 3] 2 3 2 =
      some [[5, 7], [3]] ∧
    (∃ bs, trimSplitFilenames (fun n : Nat => n) [5, 1, 7, 3] 2 3 2 = some bs ∧
      bs.flatten =
        (if (0 : Int) < 3 then
          ([5, 1, 7, 3].filter (fun f => 2 ≤ (fun n : Nat => n) f)).take (3 : Int).toNat
         else [5, 1, 7, 3].filter (fun f => 2 ≤ (fun n : Nat => n) f)) ∧
      (∀ b ∈ bs, b.length ≤ (2 : Int).toNat) ∧
      (∀ b ∈ bs.dropLast, b.length = (2 : Int).toNat)) :=
  ⟨by decide,
    trimSplitFilenames_batches (fun n : Nat => n) [5, 1, 7, 3] 2 3 2 (by decide)⟩

/-- C3: whenever `__get_filenames` returns a list, every filename in it has
an embedded timestamp strictly greater than `start_after`; none has a
timestamp less than or equal to `start_after`. -/
theorem getFilenames_strictly_after {F : Type} (ts : F → Nat) (validName : F → Bool)
    (names : List F) (startAfter : Nat) (due : List F)
    (h : getFilenames ts validName names startAfter = some due) :
    ∀ f ∈ due, startAfter < ts f ∧ ¬ ts f ≤ startAfter := by
  simp only [getFilenames] at h
  split_ifs at h with h1 h2
  have hdue := Option.some.inj h
  intro f hf
  rw [← hdue] at hf
  have hlt : startAfter < ts f := of_decide_eq_true (List.mem_filter.mp hf).2
  exact ⟨hlt, by omega⟩

/-- Witness for C3 at a concrete listing. -/
theorem getFilenames_strictly_after_w :
    getFilenames (fun n : Nat => n) (fun _ => true) [0, 5, 6] 4 = some [5, 6] ∧
    (4 < 5 ∧ ¬ (5 : Nat) ≤ 4) :=
  ⟨by decide,
    getFilenames_strictly_after (fun n : Nat => n) (fun _ => true) [0, 5, 6] 4
      [5, 6] (by decide) 5 (by decide)⟩

/-- C4 counterexample: with fetched rows whose rainfall entries are
NaN, 5, NaN (NaN is what the service sends off the hour) at timestamps
0, 0, 1, the table `__get_weather_data` returns differs from the claim's
dedup-then-fill composition: the code fills first, so the duplicate
timestamp's later value 5 propagates everywhere, while deduplicating first
discards that value and leaves every rainfall entry NaN.  Moreover, when
every fetched rainfall value is NaN the returned table keeps a missing
rainfall entry, refuting "the rainfall field has no missing values". -/
theorem getWeatherData_fill_order_cx :
    getWeatherData (fun _ => some cxNanMembers) 0 0 1440 =
      some [⟨0, ⟨some (.val 1), some (.val 2), some (.val 3), some (.val 5)⟩⟩,
        ⟨1, ⟨some (.val 1), some (.val 2), some (.val 3), some (.val 5)⟩⟩] ∧
    claimWeatherTable
        (fetchedRows (fun _ => some cxNanMembers) (subRanges 0 (0 + 10) 1440)) =
      [⟨0, ⟨some (.val 1), some (.val 2), some (.val 3), some PFloat.nan⟩⟩,
        ⟨1, ⟨some (.val 1), some (.val 2), some (.val 3), some PFloat.nan⟩⟩] ∧
    getWeatherData (fun _ => some cxNanMembers) 0 0 1440 ≠
      some (claimWeatherTable
        (fetchedRows (fun _ => some cxNanMembers) (subRanges 0 (0 + 10) 1440))) ∧
    getWeatherData (fun _ => some cxAllNanMembers) 0 0 1440 = some [cxNanRow] ∧
    cxNanRow.rainVal = none := by
  exact ⟨by decide, by decide, by decide, by decide, by decide⟩

/-- C4 amended: whenever `__get_weather_data` returns a table, that table
equals the fetched sub-range rows concatenated, forward- then
backward-filled on the rainfall field only, and THEN deduplicated on exact
timestamps keeping the first occurrence; the table has at most one row per
exact timestamp, and — provided at least one fetched row carries a valid
(non-NaN) rainfall value — its rainfall field has no missing entry. -/
theorem getWeatherData_fill_then_dedup (net : Nat × Nat → Option (List WMember))
    (start stop step : Nat) (tbl : List WRow)
    (h : getWeatherData net start stop step = some tbl) :
    tbl = dedupTs (fillR1H (fetchedRows net (subRanges start (stop + 10) step))) [] ∧
      (tbl.map (fun r => r.ts)).Nodup ∧
      ((∃ r ∈ fetchedRows net (subRanges start (stop + 10) step), r.rainVal.isSome) →
        ∀ r ∈ tbl, r.rainVal.isSome) := by
  set rows := fetchedRows net (subRanges start (stop + 10) step) with hrows
  have htbl : tbl = dedupTs (fillR1H rows) [] := by
    simp only [getWeatherData, ← hrows] at h
    rcases Classical.em (rows = []) with he | he
    · rw [if_pos he] at h
      exact Option.noConfusion h
    · rw [if_neg he] at h
      exact (Option.some.inj h).symm
  refine ⟨htbl, ?_, ?_⟩
  · rw [htbl]
    exact (dedupTs_nodup _ []).1
  · intro hex r hr
    rw [htbl] at hr
    exact fillR1H_allSome rows hex r (dedupTs_subset _ [] r hr)

/-- Witness for C4 (amended) at a concrete service response. -/
theorem getWeatherData_fill_then_dedup_w :
    getWeatherData (fun _ => some wMembersA) 0 0 1440 =
      some [⟨0, ⟨some (.val 1), some (.val 2), some (.val 3), some (.val 4)⟩⟩] ∧
    ([(⟨0, ⟨some (.val 1), some (.val 2), some (.val 3), some (.val 4)⟩⟩ : WRow)] =
      dedupTs (fillR1H
        (fetchedRows (fun _ => some wMembersA) (subRanges 0 (0 + 10) 1440))) [] ∧
      (([(⟨0, ⟨some (.val 1), some (.val 2), some (.val 3),
          some (.val 4)⟩⟩ : WRow)].map (fun r => r.ts)).Nodup) ∧
      ((∃ r ∈ fetchedRows (fun _ => some wMembersA) (subRanges 0 (0 + 10) 1440),
          r.rainVal.isSome) →
        ∀ r ∈ [(⟨0, ⟨some (.val 1), some (.val 2), some (.val 3),
          some (.val 4)⟩⟩ : WRow)], r.rainVal.isSome)) :=
  ⟨by decide,
    getWeatherData_fill_then_dedup (fun _ => some wMembersA) 0 0 1440
      [⟨0, ⟨some (.val 1), some (.val 2), some (.val 3), some (.val 4)⟩⟩]
      (by decide)⟩

/-- C5: whenever `add_weather_data` returns an enriched table, its
`(timestamp, station)` keys are exactly the input grid's keys, in the same
order: the join attaches weather columns row-wise and never filters,
duplicates or reorders grid rows. -/
theorem addWeatherData_preserves_rows {ρ : Type}
    (net : Nat × Nat → Option (List WMember)) (data : List ((Nat × String) × ρ))
    (out : List ((Nat × String) × ρ × Option WRow))
    (h : addWeatherData net data = some out) :
    out.map (fun r => r.1) = data.map (fun r => r.1) := by
  simp only [addWeatherData] at h
  rcases hmn : idxMinFold (data.map (fun r => r.1)) with _ | mn <;> rw [hmn] at h
  · exact Option.noConfusion h
  rcases hmx : idxMaxFold (data.map (fun r => r.1)) with _ | mx <;> rw [hmx] at h
  · exact Option.noConfusion h
  rcases hw : getWeatherData net mn.1 mx.1 1440 with _ | weather <;>
    simp only [hw] at h
  · exact Option.noConfusion h
  set reindexed := (data.map (fun r => r.1.1)).map (fun t => nearestRow weather t)
    with hre
  have hlen : data.length ≤ reindexed.length := by
    rw [hre, List.length_map, List.length_map]
  have hout := (Option.some.inj h).symm
  rw [hout]
  calc ((data.zip reindexed).map fun dw => (dw.1.1, (dw.1.2, dw.2))).map (fun r => r.1)
      = (data.zip reindexed).map (fun dw => dw.1.1) := by
        rw [List.map_map]
        rfl
    _ = ((data.zip reindexed).map Prod.fst).map (fun r => r.1) := by
        rw [List.map_map]
        rfl
    _ = data.map (fun r => r.1) := by rw [List.map_fst_zip data reindexed hlen]

/-- Witness for C5 at a concrete one-row grid. -/
theorem addWeatherData_preserves_rows_w :
    addWeatherData (fun _ => some wMembersA) [((0, "A"), (3 : Nat))] =
      some [((0, "A"), (3, some ⟨0, ⟨some (.val 1), some (.val 2), some (.val 3),
        some (.val 4)⟩⟩))] ∧
    [((0, "A"), ((3 : Nat), some (⟨0, ⟨some (.val 1), some (.val 2), some (.val 3),
        some (.val 4)⟩⟩ : WRow)))].map (fun r => r.1) =
      [((0, "A"), (3 : Nat))].map (fun r => r.1) :=
  ⟨by decide,
    addWeatherData_preserves_rows (fun _ => some wMembersA) [((0, "A"), (3 : Nat))]
      [((0, "A"), (3, some ⟨0, ⟨some (.val 1), some (.val 2), some (.val 3),
        some (.val 4)⟩⟩))] (by decide)⟩

/-- C6 counterexample: with a single fetch sub-range whose fetch fails,
`__get_weather_data` does not return a result at all — the `AttributeError`
on the rainfall column of the empty table aborts the enrichment (modelled
by `none`), contradicting "a single sub-range failure never aborts the
whole enrichment". -/
theorem getWeatherData_single_failure_aborts :
    subRanges 0 (0 + 10) 1440 = [(0, 10)] ∧
    getWeatherData (fun _ => none) 0 0 1440 = none := by
  exact ⟨by decide, by decide⟩

/-- C6 amended: a failed sub-range fetch contributes no rows and processing
continues with the remaining sub-ranges; provided the surviving sub-ranges
contribute at least one row, `__get_weather_data` returns the table built
from the surviving sub-ranges alone.  (When no rows at all survive, the
function instead fails on the missing rainfall column.) -/
theorem getWeatherData_survives_failure (net : Nat × Nat → Option (List WMember))
    (start stop step : Nat) (pre post : List (Nat × Nat)) (r0 : Nat × Nat)
    (hsplit : subRanges start (stop + 10) step = pre ++ r0 :: post)
    (hfail : net r0 = none)
    (hrows : fetchedRows net (pre ++ post) ≠ []) :
    getWeatherData net start stop step =
      some (dedupTs (fillR1H (fetchedRows net (pre ++ post))) []) := by
  have hgwr : (getWeatherRange net r0).getD [] = [] := by
    simp [getWeatherRange, hfail]
  have hfetch : fetchedRows net (subRanges start (stop + 10) step) =
      fetchedRows net (pre ++ post) := by
    rw [hsplit, fetchedRows_eq_flatten, fetchedRows_eq_flatten,
      List.map_append, List.map_cons, hgwr, List.map_append,
      List.flatten_append, List.flatten_cons, List.flatten_append,
      List.nil_append]
  simp only [getWeatherData]
  rw [hfetch, if_neg hrows]

/-- Witness for C6 (amended) at a concrete two-range span where the second
fetch fails. -/
theorem getWeatherData_survives_failure_w :
    getWeatherData
        (fun r => if r.1 = 0 then some wMembersA else none) 0 1430 1440 =
      some (dedupTs
        (fillR1H (fetchedRows
          (fun r => if r.1 = 0 then some wMembersA else none) [(0, 1440)])) []) :=
  getWeatherData_survives_failure
    (fun r => if r.1 = 0 then some wMembersA else none) 0 1430 1440
    [(0, 1440)] [] (1440, 1440) (by decide) (by decide) (by decide)

/-- C7 counterexample: with `batch = -1 ≤ 0`, `__trim_split_filenames` does
not fail; it returns the empty list of batches (Python `range(0, n, -1)` is
empty), silently discarding every filename. -/
theorem trimSplitFilenames_negative_batch_cx :
    trimSplitFilenames (fun n : Nat => n) [0] 0 0 (-1) = some [] ∧
    (trimSplitFilenames (fun n : Nat => n) [0] 0 0 (-1)).isSome = true := by
  exact ⟨by decide, by decide⟩

/-- C7 amended: `batch = 0` fails fatally (the uncaught `ValueError` from
`range`), but a negative `batch` returns a result: the empty list of
batches. -/
theorem trimSplitFilenames_nonpositive_batch {F : Type} (ts : F → Nat)
    (filenames : List F) (first : Nat) (limit : Int) (batch : Int) :
    (batch = 0 → trimSplitFilenames ts filenames first limit batch = none) ∧
    (batch < 0 → trimSplitFilenames ts filenames first limit batch = some []) := by
  constructor
  · intro h0
    simp only [trimSplitFilenames, pyRange0]
    rw [if_pos h0]
    rfl
  · intro hneg
    simp only [trimSplitFilenames, pyRange0]
    rw [if_neg (show ¬ batch = 0 by omega), if_neg (show ¬ 0 < batch by omega)]
    rfl

/-- Witness for C7 (amended) at concrete nonpositive batch sizes. -/
theorem trimSplitFilenames_nonpositive_batch_w :
    trimSplitFilenames (fun n : Nat => n) [3] 0 0 0 = none ∧
    trimSplitFilenames (fun n : Nat => n) [3] 0 0 (-2) = some [] :=
  ⟨(trimSplitFilenames_nonpositive_batch (fun n : Nat => n) [3] 0 0 0).1 rfl,
    (trimSplitFilenames_nonpositive_batch (fun n : Nat => n) [3] 0 0 (-2)).2
      (by decide)⟩

/-- C8: when exactly one file of a batch fails to parse, `__get_bike_data`
skips it, returns the concatenation (in file order) of the successfully
parsed files' rows, and reports a failure count of exactly one; it never
raises. -/
theorem getBikeData_one_failure {F R : Type} (parse : F → Option (List R))
    (pre post : List F) (bad : F) (hbad : parse bad = none)
    (hpre : ∀ f ∈ pre, (parse f).isSome) (hpost : ∀ f ∈ post, (parse f).isSome) :
    getBikeData parse (pre ++ bad :: post) =
      (((pre ++ post).filterMap parse).flatten, 1) := by
  rw [getBikeData_eq]
  have h1 : (pre ++ bad :: post).filterMap parse = (pre ++ post).filterMap parse := by
    rw [List.filterMap_append, List.filterMap_append,
      List.filterMap_cons_none hbad]
  have h2 : (pre ++ bad :: post).countP (fun f => (parse f).isNone) = 1 := by
    rw [List.countP_append, List.countP_cons]
    have hp : pre.countP (fun f => (parse f).isNone) = 0 := by
      rw [List.countP_eq_zero]
      intro f hf
      have := hpre f hf
      simp only [Option.isNone_iff_eq_none]
      intro hc
      rw [hc] at this
      simp at this
    have hq : post.countP (fun f => (parse f).isNone) = 0 := by
      rw [List.countP_eq_zero]
      intro f hf
      have := hpost f hf
      simp only [Option.isNone_iff_eq_none]
      intro hc
      rw [hc] at this
      simp at this
    rw [hp, hq]
    simp [hbad]
  rw [h1, h2]

/-- Witness for C8 at a concrete batch with one malformed file. -/
theorem getBikeData_one_failure_w :
    getBikeData (fun n : Nat => if n = 9 then none else some [n]) [1, 9, 2] =
      ([1, 2], 1) :=
  (getBikeData_one_failure (fun n : Nat => if n = 9 then none else some [n])
    [1] [2] 9 (by decide) (by decide) (by decide)).trans (by decide)

/-- C9 counterexample: the weather table holds rows at timestamps 0 and 2,
both at distance 1 from the grid minute 1; the reindex in
`add_weather_data` attaches the LATER row (timestamp 2), not the earlier
one, refuting "when two weather timestamps are equidistant the earlier one
is chosen". -/
theorem addWeatherData_tie_breaks_late :
    getWeatherData (fun _ => some cxMembers) 1 1 1440 = some [cxEarly, cxLate] ∧
    tdist 1 cxEarly.ts = tdist 1 cxLate.ts ∧
    cxEarly.ts < cxLate.ts ∧
    addWeatherData (fun _ => some cxMembers) [((1, "A"), (0 : Nat))] =
      some [((1, "A"), (0, some cxLate))] ∧
    cxLate ≠ cxEarly := by
  exact ⟨by decide, by decide, by decide, by decide, by decide⟩

/-- C9 amended: the reindex attaches, to each grid minute, a weather row
whose timestamp is nearest in time; when two weather timestamps are
equidistant the LATER one is chosen (pandas resolves ties toward the
backfill candidate on an increasing index). -/
theorem nearestTs_nearest_late (wts : List Nat) (t : Nat) (hne : wts ≠ []) :
    ∃ c, nearestTs wts t = some c ∧ c ∈ wts ∧
      (∀ w ∈ wts, tdist t c ≤ tdist t w) ∧
      (∀ w ∈ wts, tdist t c = tdist t w → w ≤ c) := by
  rcases hl : (wts.filter (fun w => w ≤ t)).max? with _ | l
  · have hfl : wts.filter (fun w => w ≤ t) = [] := List.max?_eq_none_iff.mp hl
    have hgt : ∀ w ∈ wts, t < w := by
      intro w hw
      by_contra hc
      have hmemf : w ∈ wts.filter (fun w => w ≤ t) :=
        List.mem_filter.mpr ⟨hw, by simp only [decide_eq_true_eq]; omega⟩
      rw [hfl] at hmemf
      exact (List.not_mem_nil w) hmemf
    rcases hr : (wts.filter (fun w => t ≤ w)).min? with _ | r
    · have hfr : wts.filter (fun w => t ≤ w) = [] := List.min?_eq_none_iff.mp hr
      obtain ⟨x, hx⟩ := List.exists_mem_of_ne_nil wts hne
      have hmemf : x ∈ wts.filter (fun w => t ≤ w) :=
        List.mem_filter.mpr ⟨hx, by
          have := hgt x hx
          simp only [decide_eq_true_eq]
          omega⟩
      rw [hfr] at hmemf
      exact absurd hmemf (List.not_mem_nil x)
    · obtain ⟨hrmem, hrlb⟩ := natMin?_spec hr
      have hrw : r ∈ wts := (List.mem_filter.mp hrmem).1
      have hrt : t ≤ r := of_decide_eq_true (List.mem_filter.mp hrmem).2
      have hnear : nearestTs wts t = some r := by
        unfold nearestTs
        rw [hl, hr]
      refine ⟨r, hnear, hrw, ?_, ?_⟩
      · intro w hw
        have h1 : t < w := hgt w hw
        have h2 : r ≤ w := hrlb w
          (List.mem_filter.mpr ⟨hw, by simp only [decide_eq_true_eq]; omega⟩)
        unfold tdist
        split_ifs <;> omega
      · intro w hw htie
        have h1 : t < w := hgt w hw
        have h2 : r ≤ w := hrlb w
          (List.mem_filter.mpr ⟨hw, by simp only [decide_eq_true_eq]; omega⟩)
        unfold tdist at htie
        split_ifs at htie <;> omega
  · obtain ⟨hlmem, hlub⟩ := natMax?_spec hl
    have hlw : l ∈ wts := (List.mem_filter.mp hlmem).1
    have hlt : l ≤ t := of_decide_eq_true (List.mem_filter.mp hlmem).2
    rcases hr : (wts.filter (fun w => t ≤ w)).min? with _ | r
    · have hfr : wts.filter (fun w => t ≤ w) = [] := List.min?_eq_none_iff.mp hr
      have hwlt : ∀ w ∈ wts, w < t := by
        intro w hw
        by_contra hc
        have hmemf : w ∈ wts.filter (fun w => t ≤ w) :=
          List.mem_filter.mpr ⟨hw, by simp only [decide_eq_true_eq]; omega⟩
        rw [hfr] at hmemf
        exact (List.not_mem_nil w) hmemf
      have hnear : nearestTs wts t = some l := by
        unfold nearestTs
        rw [hl, hr]
      refine ⟨l, hnear, hlw, ?_, ?_⟩
      · intro w hw
        have h1 : w < t := hwlt w hw
        have h2 : w ≤ l := hlub w
          (List.mem_filter.mpr ⟨hw, by simp only [decide_eq_true_eq]; omega⟩)
        unfold tdist
        split_ifs <;> omega
      · intro w hw _
        exact hlub w
          (List.mem_filter.mpr ⟨hw, by
            have := hwlt w hw
            simp only [decide_eq_true_eq]
            omega⟩)
    · obtain ⟨hrmem, hrlb⟩ := natMin?_spec hr
      have hrw : r ∈ wts := (List.mem_filter.mp hrmem).1
      have hrt : t ≤ r := of_decide_eq_true (List.mem_filter.mp hrmem).2
      have hside : ∀ w ∈ wts, (w ≤ t → w ≤ l) ∧ (t ≤ w → r ≤ w) := by
        intro w hw
        constructor
        · intro hwt
          exact hlub w (List.mem_filter.mpr ⟨hw, by simpa using hwt⟩)
        · intro htw
          exact hrlb w (List.mem_filter.mpr ⟨hw, by simpa using htw⟩)
      have hnear : nearestTs wts t =
          (if t - l < r - t then some l else some r) := by
        unfold nearestTs
        rw [hl, hr]
      rcases Classical.em (t - l < r - t) with hbr | hbr
      · refine ⟨l, by rw [hnear, if_pos hbr], hlw, ?_, ?_⟩
        · intro w hw
          rcases Nat.le_total w t with hwt | htw
          · have hwl := (hside w hw).1 hwt
            unfold tdist
            split_ifs <;> omega
          · have hwr := (hside w hw).2 htw
            unfold tdist
            split_ifs <;> omega
        · intro w hw htie
          rcases Nat.le_total w t with hwt | htw
          · exact (hside w hw).1 hwt
          · have hwr := (hside w hw).2 htw
            unfold tdist at htie
            split_ifs at htie <;> omega
      · refine ⟨r, by rw [hnear, if_neg hbr], hrw, ?_, ?_⟩
        · intro w hw
          rcases Nat.le_total w t with hwt | htw
          · have hwl := (hside w hw).1 hwt
            unfold tdist
            split_ifs <;> omega
          · have hwr := (hside w hw).2 htw
            unfold tdist
            split_ifs <;> omega
        · intro w hw htie
          rcases Nat.le_total w t with hwt | htw
          · omega
          · have hwr := (hside w hw).2 htw
            unfold tdist at htie
            split_ifs at htie <;> omega

/-- Witness for C9 (amended) at the concrete tie. -/
theorem nearestTs_nearest_late_w :
    ∃ c, nearestTs [0, 2] 1 = some c ∧ c ∈ [0, 2] ∧
      (∀ w ∈ [0, 2], tdist 1 c ≤ tdist 1 w) ∧
      (∀ w ∈ [0, 2], tdist 1 c = tdist 1 w → w ≤ c) :=
  nearestTs_nearest_late [0, 2] 1 (by decide)

/-- C10 counterexample: fed a response whose rainfall value is the float
`NaN` (as the service delivers off the hour — the reason the downstream
`fillna` exists), the XML loop emits a row whose `R_1H` key is present but
whose stored value is `NaN`, i.e. missing as data (`rainVal = none`);
"all four parameter fields present and non-missing" is therefore false. -/
theorem parseMembers_nan_rainfall_cx :
    parseMembers cxAllNanMembers RowData.empty = [cxNanRow] ∧
    cxNanRow.vals.R_1H = some PFloat.nan ∧
    cxNanRow.rainVal = none := by
  exact ⟨by decide, by decide, by decide⟩

/-- C10 amended: every row `__get_weather_range`'s XML loop emits has all
four parameter KEYS present (temperature, wind speed, sea-level pressure,
one-hour rainfall): a row is appended only once values for all four target
names have been collected, so no partially keyed row is ever emitted.  A
stored value may however be the float `NaN` — present as a key, missing as
data. -/
theorem parseMembers_only_complete_rows :
    ∀ (ms : List WMember) (r : WRow), r ∈ parseMembers ms RowData.empty →
      r.vals.T.isSome ∧ r.vals.WS_10MIN.isSome ∧ r.vals.P_SEA.isSome ∧
        r.vals.R_1H.isSome :=
  fun ms r hr => parseMembers_complete ms RowData.empty r hr

/-- Witness for C10 at a concrete member sequence. -/
theorem parseMembers_only_complete_rows_w :
    (⟨0, ⟨some (.val 1), some (.val 2), some (.val 3), some (.val 4)⟩⟩ : WRow) ∈
        parseMembers wMembersA RowData.empty ∧
    ((⟨0, ⟨some (.val 1), some (.val 2), some (.val 3),
        some (.val 4)⟩⟩ : WRow).vals.T.isSome ∧
      (⟨0, ⟨some (.val 1), some (.val 2), some (.val 3),
        some (.val 4)⟩⟩ : WRow).vals.WS_10MIN.isSome ∧
      (⟨0, ⟨some (.val 1), some (.val 2), some (.val 3),
        some (.val 4)⟩⟩ : WRow).vals.P_SEA.isSome ∧
      (⟨0, ⟨some (.val 1), some (.val 2), some (.val 3),
        some (.val 4)⟩⟩ : WRow).vals.R_1H.isSome) :=
  ⟨by decide, parseMembers_only_complete_rows wMembersA _ (by decide)⟩

end Fillaridata
